import Mathlib

/-!
Verification of the HRD 2.0 stats ingestion pipeline.

This file gives a shallow embedding of the pipeline pieces of the repository:
the Baseball Savant fetcher (scrapePlayerStats), the identity resolver
(seedPlayersToDatabase over the Supabase service layer playerDb.upsert), the
stats archive write (the playerStats upsert of import2025Season), and, for the
scoring engine and leaderboard builder, which exist in the repository only as
design documents, models written from the specification text.

Dates are modelled as natural numbers (day ordinals), timestamps are elided,
and the write counter of DbState counts issued INSERT and UPDATE statements
(every update in the source also stamps updatedAt, so each counted write is a
genuine mutation).
-/

namespace HRD

/-- A row of the Player table: permanent identity keyed by the external MLB id. -/
structure PlayerRow where
  id : Nat
  mlbId : String
  name : String
  teamAbbr : String
  photoUrl : Option String
deriving DecidableEq, Repr

/-- A row of the PlayerSeasonStats table, keyed by (playerId, seasonYear). -/
structure SeasonStatsRow where
  playerId : Nat
  seasonYear : Nat
  hrsTotal : Nat
  teamAbbr : String
deriving DecidableEq, Repr

/-- The persistent store touched by the resolver: the Player and
PlayerSeasonStats tables, a fresh-id supply, and a counter of issued
INSERT/UPDATE statements. -/
structure DbState where
  players : List PlayerRow
  seasonStats : List SeasonStatsRow
  nextId : Nat
  writes : Nat
deriving DecidableEq, Repr

def emptyDb : DbState := ⟨[], [], 0, 0⟩

/-- Embeds playerDb.findFirst with a mlbId filter: the first matching row. -/
def findPlayerByMlbId (s : DbState) (mlbId : String) : Option PlayerRow :=
  s.players.find? (fun p => p.mlbId == mlbId)

/-- Embeds playerDb.upsert as called by seedPlayersToDatabase: look the player
up by mlbId; if present, update only teamAbbr (and updatedAt, elided); if
absent, insert a full new row.  Returns the row id the caller uses for the
season-stats upsert. -/
def playerUpsert (s : DbState) (mlbId pname teamAbbr : String)
    (photoUrl : Option String) : DbState × Nat :=
  match findPlayerByMlbId s mlbId with
  | some row =>
    ({ s with
        players := s.players.map (fun p =>
          if p.id == row.id then { p with teamAbbr := teamAbbr } else p),
        writes := s.writes + 1 }, row.id)
  | none =>
    ({ s with
        players := s.players ++ [⟨s.nextId, mlbId, pname, teamAbbr, photoUrl⟩],
        nextId := s.nextId + 1,
        writes := s.writes + 1 }, s.nextId)

/-- Embeds db.playerSeasonStats lookup by its composite key. -/
def findSeasonStats (s : DbState) (playerId seasonYear : Nat) : Option SeasonStatsRow :=
  s.seasonStats.find? (fun r => r.playerId == playerId && r.seasonYear == seasonYear)

/-- Embeds db.playerSeasonStats.upsert keyed by (playerId, seasonYear): update
hrsTotal and teamAbbr when the row exists, insert a full row otherwise. -/
def seasonStatsUpsert (s : DbState) (playerId seasonYear hrsTotal : Nat)
    (teamAbbr : String) : DbState :=
  match findSeasonStats s playerId seasonYear with
  | some _ =>
    { s with
        seasonStats := s.seasonStats.map (fun r =>
          if r.playerId == playerId && r.seasonYear == seasonYear then
            { r with hrsTotal := hrsTotal, teamAbbr := teamAbbr }
          else r),
        writes := s.writes + 1 }
  | none =>
    { s with
        seasonStats := s.seasonStats ++ [⟨playerId, seasonYear, hrsTotal, teamAbbr⟩],
        writes := s.writes + 1 }

/-- A normalized fetched record, as produced by scrapePlayerStats. -/
structure PlayerData where
  name : String
  mlbId : String
  teamAbbr : String
  homeRuns : Nat
  photoUrl : Option String
deriving DecidableEq, Repr

/-- The accumulator of seedPlayersToDatabase: the evolving store plus the
createdCount and skippedCount counters of the source. -/
structure SeedResult where
  state : DbState
  created : Nat
  skipped : Nat
deriving DecidableEq, Repr

/-- One iteration of the seeding loop of seedPlayersToDatabase.  The two
oracles model the try/catch of the source: playerFails says the player upsert
throws at this state (nothing written), seasonFails says the season-stats
upsert throws (the player write already persisted); either way the record is
skipped and the loop continues. -/
def seedStep (playerFails seasonFails : DbState → PlayerData → Bool)
    (seasonYear : Nat) (acc : SeedResult) (player : PlayerData) : SeedResult :=
  if playerFails acc.state player then
    { acc with skipped := acc.skipped + 1 }
  else
    let res := playerUpsert acc.state player.mlbId player.name player.teamAbbr player.photoUrl
    if seasonFails res.1 player then
      { acc with state := res.1, skipped := acc.skipped + 1 }
    else
      { acc with
          state := seasonStatsUpsert res.1 res.2 seasonYear player.homeRuns player.teamAbbr,
          created := acc.created + 1 }

/-- Embeds seedPlayersToDatabase (Supabase service version): a for-loop over
the fetched records with a per-record try/catch. -/
def seedPlayersToDatabase (playerFails seasonFails : DbState → PlayerData → Bool)
    (seasonYear : Nat) (s : DbState) (players : List PlayerData) : SeedResult :=
  players.foldl (seedStep playerFails seasonFails seasonYear) ⟨s, 0, 0⟩

/-- The oracle of a run in which no database call throws. -/
def noFail : DbState → PlayerData → Bool := fun _ _ => false

/-- The store effect of resolving one record when nothing throws: the player
upsert followed by the season-stats upsert of seedPlayersToDatabase. -/
def resolveRecord (seasonYear : Nat) (s : DbState) (player : PlayerData) : DbState :=
  let res := playerUpsert s player.mlbId player.name player.teamAbbr player.photoUrl
  seasonStatsUpsert res.1 res.2 seasonYear player.homeRuns player.teamAbbr

/-- Well-formedness of the store: row ids are pairwise distinct and below the
fresh-id supply, and season-stats composite keys are pairwise distinct.  These
are the uniqueness guarantees of the underlying relational schema. -/
def DbWF (s : DbState) : Prop :=
  s.players.Pairwise (fun p q => p.id ≠ q.id) ∧
  (∀ p ∈ s.players, p.id < s.nextId) ∧
  s.seasonStats.Pairwise (fun r q => ¬(r.playerId = q.playerId ∧ r.seasonYear = q.seasonYear))

/-- The store already reflects a fetched record: the player row found by mlbId
carries its teamAbbr and its season-stats row carries its homeRuns and
teamAbbr. -/
def AgreesWith (s : DbState) (seasonYear : Nat) (player : PlayerData) : Prop :=
  ∃ row, findPlayerByMlbId s player.mlbId = some row ∧
    row.teamAbbr = player.teamAbbr ∧
    ∃ srow, findSeasonStats s row.id seasonYear = some srow ∧
      srow.hrsTotal = player.homeRuns ∧ srow.teamAbbr = player.teamAbbr

/-- One nonblank CSV data line of the Baseball Savant payload, seen through the
capture groups of the line regex of scrapePlayerStats; a line that does not
match the regex is represented by none. -/
structure RawLine where
  fullName : String
  playerId : Nat
  year : Nat
  homeRuns : Nat
deriving DecidableEq, Repr

/-- The fetched CSV body: one entry per nonblank line, the first being the
header row the loop skips. -/
abbrev Payload := List (Option RawLine)

/-- Embeds the name handling of scrapePlayerStats: split the quoted
"Last, First" field on commas, trim, and rebuild "First Last" when at least
two parts exist. -/
def parsePlayerName (fullName : String) : String :=
  let nameParts := (fullName.splitOn ",").map String.trim
  if 2 ≤ nameParts.length then
    nameParts.getD 1 "" ++ " " ++ nameParts.getD 0 ""
  else fullName

/-- Embeds one iteration of the CSV loop of scrapePlayerStats: a non-matching
line is skipped, a matching one yields a record only when homeRuns is at least
10; teamAbbr is the UNK placeholder and the external id is mlb-(playerId). -/
def lineToPlayer (line : Option RawLine) : Option PlayerData :=
  match line with
  | none => none
  | some raw =>
    if 10 ≤ raw.homeRuns then
      some { name := parsePlayerName raw.fullName,
             mlbId := "mlb-" ++ toString raw.playerId,
             teamAbbr := "UNK",
             homeRuns := raw.homeRuns,
             photoUrl := none }
    else none

/-- Modelled from the claim wording: the full upstream listing, i.e. the same
parse without the 10-home-run eligibility check. -/
def lineToPlayerAny (line : Option RawLine) : Option PlayerData :=
  match line with
  | none => none
  | some raw =>
    some { name := parsePlayerName raw.fullName,
           mlbId := "mlb-" ++ toString raw.playerId,
           teamAbbr := "UNK",
           homeRuns := raw.homeRuns,
           photoUrl := none }

/-- The record list scrapePlayerStats builds from a fetched body: skip the
header line, then keep each matching eligible line in order. -/
def extractPlayers (body : Payload) : List PlayerData :=
  (body.drop 1).filterMap lineToPlayer

/-- The full upstream listing of a body, without the eligibility filter. -/
def extractAllPlayers (body : Payload) : List PlayerData :=
  (body.drop 1).filterMap lineToPlayerAny

/-- Embeds scrapePlayerStats: the axios fetch either yields a text body or
throws (network failure or non-text payload); in the latter case the catch
block rethrows the wrapped scrape error, otherwise the full extracted list is
returned. -/
def scrapePlayerStats (fetched : Except Unit Payload) : Except String (List PlayerData) :=
  match fetched with
  | .error _ => .error "Failed to scrape player data"
  | .ok body => .ok (extractPlayers body)

/-- The fetch phase of a cycle paired with the persistent store it runs
against: scrapePlayerStats performs no database call, so the store is passed
through untouched. -/
def fetchPhase (s : DbState) (fetched : Except Unit Payload) :
    DbState × Except String (List PlayerData) :=
  (s, scrapePlayerStats fetched)

/-- A concrete fetched body whose two data lines carry the same player id. -/
def dupIdBody : Payload :=
  [none,
   some ⟨"Judge, Aaron", 592450, 2025, 40⟩,
   some ⟨"Judge, Aaron", 592450, 2025, 41⟩]

/-- A row of the PlayerStats table: a per-player, per-season, per-date home
run snapshot, dates modelled as day ordinals. -/
structure StatRow where
  playerId : Nat
  seasonYear : Nat
  date : Nat
  hrsTotal : Nat
  hrsRegularSeason : Nat
  hrsPostseason : Nat
deriving DecidableEq, Repr

/-- The composite key test of the playerStats upsert of import2025Season. -/
def statKeyMatches (playerId seasonYear date : Nat) (r : StatRow) : Bool :=
  r.playerId == playerId && r.seasonYear == seasonYear && r.date == date

/-- Lookup of a snapshot by its composite key. -/
def lookupStat (a : List StatRow) (playerId seasonYear date : Nat) : Option StatRow :=
  a.find? (statKeyMatches playerId seasonYear date)

/-- Embeds prisma.playerStats.upsert of import2025Season: keyed by
(playerId, seasonYear, date); when the row exists the three hour fields are
replaced, otherwise a full row is inserted. -/
def upsertStat (a : List StatRow) (playerId seasonYear date hrsTotal hrsReg hrsPost : Nat) :
    List StatRow :=
  match lookupStat a playerId seasonYear date with
  | some _ =>
    a.map (fun r =>
      if statKeyMatches playerId seasonYear date r then
        { r with hrsTotal := hrsTotal, hrsRegularSeason := hrsReg, hrsPostseason := hrsPost }
      else r)
  | none => a ++ [⟨playerId, seasonYear, date, hrsTotal, hrsReg, hrsPost⟩]

/-- The monotonicity invariant of the claim: within one player and season, the
snapshot hrsTotal values are non-decreasing along strictly increasing dates. -/
def ArchiveMonotone (a : List StatRow) (playerId seasonYear : Nat) : Prop :=
  ∀ r1 ∈ a, ∀ r2 ∈ a,
    r1.playerId = playerId → r1.seasonYear = seasonYear →
    r2.playerId = playerId → r2.seasonYear = seasonYear →
    r1.date < r2.date → r1.hrsTotal ≤ r2.hrsTotal

instance (a : List StatRow) (p y : Nat) : Decidable (ArchiveMonotone a p y) := by
  unfold ArchiveMonotone; infer_instance

/-- Modelled from the spec: the descending order used by the Scoring Engine,
on (rosterPosition, periodTotal) pairs — larger totals first, with ties broken
by roster position, the lower position first.  The scoring job itself exists
in the repository only as a design document. -/
def scoreOrder (a b : Nat × Nat) : Prop :=
  b.2 < a.2 ∨ (a.2 = b.2 ∧ a.1 ≤ b.1)

instance : DecidableRel scoreOrder := fun a b => by
  unfold scoreOrder; exact inferInstance

instance : IsTotal (Nat × Nat) scoreOrder :=
  ⟨by intro a b; unfold scoreOrder; omega⟩

instance : IsTrans (Nat × Nat) scoreOrder :=
  ⟨by intro a b c hab hbc; unfold scoreOrder at *; omega⟩

/-- Modelled from the spec: the best-7-of-8 rule of the Scoring Engine.  Pair
each of the per-player period totals with its roster position, sort descending
by total with the position tie-break, sum the top 7, and record the excluded
position (the remaining entry). -/
def scoreRoster (totals : List Nat) : Nat × Option Nat :=
  let ranked := List.insertionSort scoreOrder totals.enum
  (((ranked.take 7).map Prod.snd).sum, (ranked.drop 7).head?.map Prod.fst)

/-- Modelled from the spec: the rank-assignment walk of the Leaderboard
Builder over an already descending-sorted total list.  pos is the zero-based
position of the next entry; a total equal to its predecessor repeats the
predecessor rank, a new distinct total takes rank pos + 1. -/
def assignRanksAux (pos prevTotal prevRank : Nat) : List Nat → List Nat
  | [] => []
  | t :: rest =>
    let r := if t == prevTotal then prevRank else pos + 1
    r :: assignRanksAux (pos + 1) t r rest

/-- Modelled from the spec: standard competition ranking of a
descending-sorted total list — the first entry takes rank 1. -/
def assignRanks : List Nat → List Nat
  | [] => []
  | t :: rest => 1 :: assignRanksAux 1 t 1 rest

instance : IsTotal Nat (fun a b : Nat => b ≤ a) :=
  ⟨fun a b => Nat.le_total b a⟩

instance : IsTrans Nat (fun a b : Nat => b ≤ a) :=
  ⟨fun _ _ _ hab hbc => Nat.le_trans hbc hab⟩

/-- Modelled from the spec: the Leaderboard Builder — sort the per-roster
totals descending and pair each with its competition rank. -/
def buildLeaderboard (totals : List Nat) : List (Nat × Nat) :=
  let sorted := List.insertionSort (fun a b : Nat => b ≤ a) totals
  sorted.zip (assignRanks sorted)

/-- A map whose function fixes every element of a list leaves it unchanged. -/
theorem map_id_of_mem {α : Type} {f : α → α} :
    ∀ {l : List α}, (∀ x ∈ l, f x = x) → l.map f = l
  | [], _ => rfl
  | a :: l, h => by
    rw [List.map_cons, h a (List.mem_cons_self a l),
      map_id_of_mem (fun x hx => h x (List.mem_cons_of_mem a hx))]

/-- Claim C5: the Source Fetcher either returns the full extracted record list
or fails with the wrapped scrape error, with no partial result, and it leaves
the persistent store untouched in both cases. -/
theorem fetcher_all_or_nothing_pure (s : DbState) (fetched : Except Unit Payload) :
    (fetchPhase s fetched).1 = s ∧
    ((∃ body, fetched = Except.ok body ∧
        (fetchPhase s fetched).2 = Except.ok (extractPlayers body)) ∨
     (∃ e, fetched = Except.error e ∧
        (fetchPhase s fetched).2 = Except.error "Failed to scrape player data")) := by
  refine ⟨rfl, ?_⟩
  cases fetched with
  | ok body => exact Or.inl ⟨body, rfl, rfl⟩
  | error e => exact Or.inr ⟨e, rfl, rfl⟩

/-- Claim C6 counterexample: a fetch whose raw source holds two records for
one externalPlayerId returns both records, so the output is not deduplicated
by externalPlayerId. -/
theorem fetcher_duplicate_ids_counterexample :
    (extractPlayers dupIdBody).map PlayerData.mlbId = ["mlb-592450", "mlb-592450"] ∧
    (extractPlayers dupIdBody).map PlayerData.homeRuns = [40, 41] := by
  exact ⟨rfl, rfl⟩

/-- Claim C6 as amended: the fetcher output carries one record per matching
eligible CSV line, in source order and without deduplication, so for every
external id string the number of returned records carrying it equals the
number of eligible data lines generating it. -/
theorem fetcher_output_counts_matching_lines (body : Payload) (s : String) :
    (extractPlayers body).countP (fun p => p.mlbId == s) =
    (body.drop 1).countP (fun line =>
      match line with
      | some raw => ("mlb-" ++ toString raw.playerId == s) && decide (10 ≤ raw.homeRuns)
      | none => false) := by
  show ((body.drop 1).filterMap lineToPlayer).countP _ = _
  induction body.drop 1 with
  | nil => rfl
  | cons a l ih =>
    cases a with
    | none => simpa [lineToPlayer] using ih
    | some raw =>
      by_cases h10 : 10 ≤ raw.homeRuns
      · simp [lineToPlayer, h10, List.countP_cons, ih, Nat.add_comm]
      · simp [lineToPlayer, h10, List.countP_cons, ih]

/-- Claim C10: scrapePlayerStats returns exactly the upstream listing
restricted to players with at least 10 home runs; below-threshold players are
silently omitted. -/
theorem scraper_filters_below_ten (body : Payload) :
    extractPlayers body = (extractAllPlayers body).filter (fun p => decide (10 ≤ p.homeRuns)) := by
  show (body.drop 1).filterMap lineToPlayer =
    ((body.drop 1).filterMap lineToPlayerAny).filter _
  induction body.drop 1 with
  | nil => rfl
  | cons a l ih =>
    cases a with
    | none => simpa [lineToPlayer, lineToPlayerAny] using ih
    | some raw =>
      by_cases h10 : 10 ≤ raw.homeRuns
      · simp [lineToPlayer, lineToPlayerAny, h10, List.filter_cons, ih]
      · simp [lineToPlayer, lineToPlayerAny, h10, List.filter_cons, ih]

/-- The update function of the snapshot upsert leaves every composite key
field unchanged. -/
theorem statKeyMatches_update (p y d v vr vp p2 y2 d2 : Nat) (r : StatRow) :
    statKeyMatches p2 y2 d2
      (if statKeyMatches p y d r then
        { r with hrsTotal := v, hrsRegularSeason := vr, hrsPostseason := vp }
      else r) = statKeyMatches p2 y2 d2 r := by
  by_cases h : statKeyMatches p y d r = true
  · rw [if_pos h]; rfl
  · rw [if_neg h]

/-- Claim C7: the snapshot write keyed by (playerId, seasonYear, date)
replaces the values of an existing row for that exact key and leaves the
snapshot of every earlier date of that player and season unchanged. -/
theorem snapshot_upsert_replaces_and_preserves
    (a : List StatRow) (p y d v vr vp : Nat) (old : StatRow)
    (h : lookupStat a p y d = some old) :
    lookupStat (upsertStat a p y d v vr vp) p y d =
      some { old with hrsTotal := v, hrsRegularSeason := vr, hrsPostseason := vp } ∧
    ∀ d2, d2 < d → lookupStat (upsertStat a p y d v vr vp) p y d2 = lookupStat a p y d2 := by
  have hold : statKeyMatches p y d old = true := List.find?_some h
  rw [upsertStat, h]
  set f : StatRow → StatRow := fun r =>
    if statKeyMatches p y d r then
      { r with hrsTotal := v, hrsRegularSeason := vr, hrsPostseason := vp }
    else r with hf
  constructor
  · show List.find? _ (a.map f) = _
    rw [List.find?_map]
    have hcomp : (statKeyMatches p y d ∘ f) = statKeyMatches p y d := by
      funext r
      exact statKeyMatches_update p y d v vr vp p y d r
    rw [hcomp]
    show (lookupStat a p y d).map f = _
    rw [h]
    simp [hf, hold]
  · intro d2 hd2
    show List.find? _ (a.map f) = _
    rw [List.find?_map]
    have hcomp : (statKeyMatches p y d2 ∘ f) = statKeyMatches p y d2 := by
      funext r
      exact statKeyMatches_update p y d v vr vp p y d2 r
    rw [hcomp]
    show (List.find? (statKeyMatches p y d2) a).map f = lookupStat a p y d2
    rcases hfind : List.find? (statKeyMatches p y d2) a with _ | r0
    · simp [lookupStat, hfind]
    · have hr0 : statKeyMatches p y d2 r0 = true := List.find?_some hfind
      have hnot : statKeyMatches p y d r0 = false := by
        rw [Bool.eq_false_iff]
        intro hcontra
        simp only [statKeyMatches, Bool.and_eq_true, beq_iff_eq] at hr0 hcontra
        omega
      simp [lookupStat, hfind, hf, hnot]

/-- Claim C7 witness: a concrete same-key correction replaces the row and a
strictly earlier date is untouched. -/
theorem snapshot_upsert_replaces_and_preserves_witness :
    lookupStat [(⟨1, 2025, 5, 10, 10, 0⟩ : StatRow)] 1 2025 5 = some ⟨1, 2025, 5, 10, 10, 0⟩ ∧
    (lookupStat (upsertStat [⟨1, 2025, 5, 10, 10, 0⟩] 1 2025 5 12 12 0) 1 2025 5 =
        some ⟨1, 2025, 5, 12, 12, 0⟩ ∧
      ∀ d2, d2 < 5 →
        lookupStat (upsertStat [⟨1, 2025, 5, 10, 10, 0⟩] 1 2025 5 12 12 0) 1 2025 d2 =
          lookupStat [⟨1, 2025, 5, 10, 10, 0⟩] 1 2025 d2) :=
  ⟨rfl, snapshot_upsert_replaces_and_preserves [⟨1, 2025, 5, 10, 10, 0⟩] 1 2025 5 12 12 0
    ⟨1, 2025, 5, 10, 10, 0⟩ rfl⟩

/-- Claim C8 counterexample: the archive write carries no monotonicity guard —
a same-key write replaces a snapshot with a strictly lower hrsTotal, and a
later-dated write below an earlier total leaves a decreasing series. -/
theorem snapshot_lower_overwrite_counterexample :
    lookupStat (upsertStat [⟨1, 2025, 3, 10, 10, 0⟩] 1 2025 3 5 5 0) 1 2025 3 =
      some ⟨1, 2025, 3, 5, 5, 0⟩ ∧
    ¬ ArchiveMonotone (upsertStat [⟨1, 2025, 3, 10, 10, 0⟩] 1 2025 4 5 5 0) 1 2025 := by
  exact ⟨rfl, by decide⟩

/-- Claim C8 as amended: the snapshot write replaces its key unconditionally
and enforces nothing, so the per-player season series stays non-decreasing
exactly when the written value respects its date neighbours: at least every
earlier-dated total and at most every later-dated one. -/
theorem snapshot_upsert_monotone_when_fits
    (a : List StatRow) (p y d v vr vp : Nat)
    (hmono : ArchiveMonotone a p y)
    (hfit : ∀ r ∈ a, r.playerId = p → r.seasonYear = y →
      (r.date < d → r.hrsTotal ≤ v) ∧ (d < r.date → v ≤ r.hrsTotal)) :
    ArchiveMonotone (upsertStat a p y d v vr vp) p y := by
  have hkey : ∀ r : StatRow, statKeyMatches p y d r = true ↔
      r.playerId = p ∧ r.seasonYear = y ∧ r.date = d := by
    intro r
    simp [statKeyMatches, Bool.and_eq_true, beq_iff_eq, and_assoc]
  rw [upsertStat]
  rcases hlook : lookupStat a p y d with _ | old
  · intro r1 h1 r2 h2 hp1 hy1 hp2 hy2 hdate
    rcases List.mem_append.mp h1 with h1a | h1n
    · rcases List.mem_append.mp h2 with h2a | h2n
      · exact hmono r1 h1a r2 h2a hp1 hy1 hp2 hy2 hdate
      · have h2e : r2 = ⟨p, y, d, v, vr, vp⟩ := by simpa using h2n
        subst h2e
        exact (hfit r1 h1a hp1 hy1).1 hdate
    · have h1e : r1 = ⟨p, y, d, v, vr, vp⟩ := by simpa using h1n
      subst h1e
      rcases List.mem_append.mp h2 with h2a | h2n
      · exact (hfit r2 h2a hp2 hy2).2 hdate
      · have h2e : r2 = ⟨p, y, d, v, vr, vp⟩ := by simpa using h2n
        subst h2e
        exact absurd hdate (lt_irrefl _)
  · set g : StatRow → StatRow := fun r =>
      if statKeyMatches p y d r then
        { r with hrsTotal := v, hrsRegularSeason := vr, hrsPostseason := vp }
      else r with hg
    have gdate : ∀ s : StatRow, (g s).date = s.date := by
      intro s
      by_cases k : statKeyMatches p y d s = true <;> simp [hg, k]
    have gpid : ∀ s : StatRow, (g s).playerId = s.playerId := by
      intro s
      by_cases k : statKeyMatches p y d s = true <;> simp [hg, k]
    have gyear : ∀ s : StatRow, (g s).seasonYear = s.seasonYear := by
      intro s
      by_cases k : statKeyMatches p y d s = true <;> simp [hg, k]
    intro r1 h1 r2 h2 hp1 hy1 hp2 hy2 hdlt
    rcases List.mem_map.mp h1 with ⟨s1, hs1, hfs1⟩
    rcases List.mem_map.mp h2 with ⟨s2, hs2, hfs2⟩
    subst hfs1
    subst hfs2
    rw [gdate s1, gdate s2] at hdlt
    rw [gpid s1] at hp1
    rw [gpid s2] at hp2
    rw [gyear s1] at hy1
    rw [gyear s2] at hy2
    by_cases k1 : statKeyMatches p y d s1 = true <;>
      by_cases k2 : statKeyMatches p y d s2 = true
    · have e1 : s1.date = d := ((hkey s1).mp k1).2.2
      have e2 : s2.date = d := ((hkey s2).mp k2).2.2
      exact absurd hdlt (by omega)
    · have e1 : s1.date = d := ((hkey s1).mp k1).2.2
      have gv1 : (g s1).hrsTotal = v := by simp [hg, k1]
      have gv2 : (g s2).hrsTotal = s2.hrsTotal := by simp [hg, k2]
      rw [gv1, gv2]
      exact (hfit s2 hs2 hp2 hy2).2 (by omega)
    · have e2 : s2.date = d := ((hkey s2).mp k2).2.2
      have gv1 : (g s1).hrsTotal = s1.hrsTotal := by simp [hg, k1]
      have gv2 : (g s2).hrsTotal = v := by simp [hg, k2]
      rw [gv1, gv2]
      exact (hfit s1 hs1 hp1 hy1).1 (by omega)
    · have gv1 : (g s1).hrsTotal = s1.hrsTotal := by simp [hg, k1]
      have gv2 : (g s2).hrsTotal = s2.hrsTotal := by simp [hg, k2]
      rw [gv1, gv2]
      exact hmono s1 hs1 s2 hs2 hp1 hy1 hp2 hy2 hdlt

/-- Claim C8 amended witness: a concrete in-order write preserves the
monotone series. -/
theorem snapshot_upsert_monotone_when_fits_witness :
    ArchiveMonotone [(⟨1, 2025, 3, 10, 10, 0⟩ : StatRow)] 1 2025 ∧
    ArchiveMonotone (upsertStat [⟨1, 2025, 3, 10, 10, 0⟩] 1 2025 4 12 12 0) 1 2025 :=
  ⟨by decide, snapshot_upsert_monotone_when_fits [⟨1, 2025, 3, 10, 10, 0⟩] 1 2025 4 12 12 0
    (by decide) (by decide)⟩

/-- The seeding fold acts on the created/skipped counters purely additively:
running from any counter values equals running from zero and adding. -/
theorem seed_counts_shift (pf sf : DbState → PlayerData → Bool) (year : Nat) :
    ∀ (ys : List PlayerData) (st : DbState) (c k : Nat),
      ys.foldl (seedStep pf sf year) ⟨st, c, k⟩ =
        ⟨(ys.foldl (seedStep pf sf year) ⟨st, 0, 0⟩).state,
         c + (ys.foldl (seedStep pf sf year) ⟨st, 0, 0⟩).created,
         k + (ys.foldl (seedStep pf sf year) ⟨st, 0, 0⟩).skipped⟩
  | [], st, c, k => by simp
  | y :: ys, st, c, k => by
    rw [List.foldl_cons, List.foldl_cons]
    by_cases hpf : pf st y = true
    · have h1 : ∀ c2 k2 : Nat, seedStep pf sf year ⟨st, c2, k2⟩ y = ⟨st, c2, k2 + 1⟩ := by
        intro c2 k2
        simp [seedStep, hpf]
      rw [h1 c k, h1 0 0, seed_counts_shift pf sf year ys st c (k + 1),
        seed_counts_shift pf sf year ys st 0 (0 + 1)]
      simp only [SeedResult.mk.injEq]
      exact ⟨trivial, by omega, by omega⟩
    · by_cases hsf :
        sf (playerUpsert st y.mlbId y.name y.teamAbbr y.photoUrl).1 y = true
      · have h1 : ∀ c2 k2 : Nat, seedStep pf sf year ⟨st, c2, k2⟩ y =
            ⟨(playerUpsert st y.mlbId y.name y.teamAbbr y.photoUrl).1, c2, k2 + 1⟩ := by
          intro c2 k2
          simp [seedStep, hpf, hsf]
        rw [h1 c k, h1 0 0,
          seed_counts_shift pf sf year ys
            (playerUpsert st y.mlbId y.name y.teamAbbr y.photoUrl).1 c (k + 1),
          seed_counts_shift pf sf year ys
            (playerUpsert st y.mlbId y.name y.teamAbbr y.photoUrl).1 0 (0 + 1)]
        simp only [SeedResult.mk.injEq]
        exact ⟨trivial, by omega, by omega⟩
      · have h1 : ∀ c2 k2 : Nat, seedStep pf sf year ⟨st, c2, k2⟩ y =
            ⟨seasonStatsUpsert (playerUpsert st y.mlbId y.name y.teamAbbr y.photoUrl).1
              (playerUpsert st y.mlbId y.name y.teamAbbr y.photoUrl).2 year y.homeRuns y.teamAbbr,
             c2 + 1, k2⟩ := by
          intro c2 k2
          simp [seedStep, hpf, hsf]
        rw [h1 c k, h1 0 0,
          seed_counts_shift pf sf year ys
            (seasonStatsUpsert (playerUpsert st y.mlbId y.name y.teamAbbr y.photoUrl).1
              (playerUpsert st y.mlbId y.name y.teamAbbr y.photoUrl).2 year y.homeRuns y.teamAbbr)
            (c + 1) k,
          seed_counts_shift pf sf year ys
            (seasonStatsUpsert (playerUpsert st y.mlbId y.name y.teamAbbr y.photoUrl).1
              (playerUpsert st y.mlbId y.name y.teamAbbr y.photoUrl).2 year y.homeRuns y.teamAbbr)
            (0 + 1) 0]
        simp only [SeedResult.mk.injEq]
        exact ⟨trivial, by omega, by omega⟩

/-- Appending record lists composes the seeding fold. -/
theorem seedPlayersToDatabase_append (pf sf : DbState → PlayerData → Bool)
    (year : Nat) (s : DbState) (xs l : List PlayerData) :
    seedPlayersToDatabase pf sf year s (xs ++ l) =
      l.foldl (seedStep pf sf year) (seedPlayersToDatabase pf sf year s xs) := by
  unfold seedPlayersToDatabase
  exact List.foldl_append _ _ xs l

/-- Claim C9: a per-record persistence failure is isolated — when the record b
fails (its player upsert throws at the state reached after the prefix xs), the
cycle skips exactly b, processes the whole tail ys from that same state, and
the created/skipped counters account for every record. -/
theorem seed_isolates_record_failures (pf sf : DbState → PlayerData → Bool)
    (year : Nat) (s : DbState) (xs ys : List PlayerData) (b : PlayerData)
    (h : pf (seedPlayersToDatabase pf sf year s xs).state b = true) :
    seedPlayersToDatabase pf sf year s (xs ++ b :: ys) =
      ⟨(seedPlayersToDatabase pf sf year
          (seedPlayersToDatabase pf sf year s xs).state ys).state,
       (seedPlayersToDatabase pf sf year s xs).created +
         (seedPlayersToDatabase pf sf year
           (seedPlayersToDatabase pf sf year s xs).state ys).created,
       (seedPlayersToDatabase pf sf year s xs).skipped + 1 +
         (seedPlayersToDatabase pf sf year
           (seedPlayersToDatabase pf sf year s xs).state ys).skipped⟩ := by
  rw [seedPlayersToDatabase_append, List.foldl_cons]
  have hstep : seedStep pf sf year (seedPlayersToDatabase pf sf year s xs) b =
      ⟨(seedPlayersToDatabase pf sf year s xs).state,
       (seedPlayersToDatabase pf sf year s xs).created,
       (seedPlayersToDatabase pf sf year s xs).skipped + 1⟩ := by
    simp [seedStep, h]
  rw [hstep,
    seed_counts_shift pf sf year ys (seedPlayersToDatabase pf sf year s xs).state
      (seedPlayersToDatabase pf sf year s xs).created
      ((seedPlayersToDatabase pf sf year s xs).skipped + 1)]
  rfl

/-- Claim C9 witness: in a concrete three-record run whose middle record
fails, only that record is skipped and both others are persisted. -/
theorem seed_isolates_record_failures_witness :
    (fun (_ : DbState) (p : PlayerData) => p.mlbId == "mlb-2")
        (seedPlayersToDatabase (fun _ p => p.mlbId == "mlb-2") noFail 2025 emptyDb
          [⟨"Alpha", "mlb-1", "NYY", 30, none⟩]).state
        ⟨"Beta", "mlb-2", "LAD", 25, none⟩ = true ∧
    seedPlayersToDatabase (fun _ p => p.mlbId == "mlb-2") noFail 2025 emptyDb
        ([⟨"Alpha", "mlb-1", "NYY", 30, none⟩] ++
          ⟨"Beta", "mlb-2", "LAD", 25, none⟩ :: [⟨"Gamma", "mlb-3", "BOS", 20, none⟩]) =
      ⟨(seedPlayersToDatabase (fun _ p => p.mlbId == "mlb-2") noFail 2025
          (seedPlayersToDatabase (fun _ p => p.mlbId == "mlb-2") noFail 2025 emptyDb
            [⟨"Alpha", "mlb-1", "NYY", 30, none⟩]).state
          [⟨"Gamma", "mlb-3", "BOS", 20, none⟩]).state,
       (seedPlayersToDatabase (fun _ p => p.mlbId == "mlb-2") noFail 2025 emptyDb
          [⟨"Alpha", "mlb-1", "NYY", 30, none⟩]).created +
         (seedPlayersToDatabase (fun _ p => p.mlbId == "mlb-2") noFail 2025
           (seedPlayersToDatabase (fun _ p => p.mlbId == "mlb-2") noFail 2025 emptyDb
             [⟨"Alpha", "mlb-1", "NYY", 30, none⟩]).state
           [⟨"Gamma", "mlb-3", "BOS", 20, none⟩]).created,
       (seedPlayersToDatabase (fun _ p => p.mlbId == "mlb-2") noFail 2025 emptyDb
          [⟨"Alpha", "mlb-1", "NYY", 30, none⟩]).skipped + 1 +
         (seedPlayersToDatabase (fun _ p => p.mlbId == "mlb-2") noFail 2025
           (seedPlayersToDatabase (fun _ p => p.mlbId == "mlb-2") noFail 2025 emptyDb
             [⟨"Alpha", "mlb-1", "NYY", 30, none⟩]).state
           [⟨"Gamma", "mlb-3", "BOS", 20, none⟩]).skipped⟩ :=
  ⟨rfl, seed_isolates_record_failures (fun _ p => p.mlbId == "mlb-2") noFail 2025 emptyDb
    [⟨"Alpha", "mlb-1", "NYY", 30, none⟩] [⟨"Gamma", "mlb-3", "BOS", 20, none⟩]
    ⟨"Beta", "mlb-2", "LAD", 25, none⟩ rfl⟩

/-- The update function of the player upsert changes no row id, mlbId, name
or photo. -/
theorem playerUpdate_fields (t : String) (rid : Nat) (q : PlayerRow) :
    ((if q.id == rid then { q with teamAbbr := t } else q) : PlayerRow).id = q.id ∧
    ((if q.id == rid then { q with teamAbbr := t } else q) : PlayerRow).mlbId = q.mlbId ∧
    ((if q.id == rid then { q with teamAbbr := t } else q) : PlayerRow).name = q.name ∧
    ((if q.id == rid then { q with teamAbbr := t } else q) : PlayerRow).photoUrl = q.photoUrl := by
  by_cases hid : (q.id == rid) = true <;> simp [hid]

/-- Claim C4 counterexample: resolving a fetched record against an existing
player leaves the stored name unchanged — the fetched name is not written. -/
theorem resolver_name_not_overwritten_counterexample :
    ((playerUpsert ⟨[⟨0, "mlb-1", "Old Name", "UNK", none⟩], [], 1, 0⟩
        "mlb-1" "New Name" "UNK" none).1.players.map PlayerRow.name = ["Old Name"] ∧
      "Old Name" ≠ "New Name") := by
  exact ⟨rfl, by decide⟩

/-- Claim C4 as amended: on a record whose external id matches an existing
player, the upsert rewrites only that row's currentTeamAbbr, preserving every
stored name and creating no row; on an unseen external id it appends a new
player with the fetched name, team and photo. -/
theorem resolver_update_behavior (s : DbState) (m pname t : String) (ph : Option String) :
    (∃ row, findPlayerByMlbId s m = some row ∧
      (playerUpsert s m pname t ph).1.players =
        s.players.map (fun q => if q.id == row.id then { q with teamAbbr := t } else q) ∧
      (playerUpsert s m pname t ph).1.players.length = s.players.length ∧
      (playerUpsert s m pname t ph).1.players.map PlayerRow.name =
        s.players.map PlayerRow.name) ∨
    (findPlayerByMlbId s m = none ∧
      (playerUpsert s m pname t ph).1.players =
        s.players ++ [⟨s.nextId, m, pname, t, ph⟩]) := by
  rcases hfind : findPlayerByMlbId s m with _ | row
  · right
    refine ⟨rfl, ?_⟩
    simp [playerUpsert, hfind]
  · left
    refine ⟨row, rfl, ?_, ?_, ?_⟩
    · simp [playerUpsert, hfind]
    · simp [playerUpsert, hfind]
    · simp only [playerUpsert, hfind, List.map_map]
      apply List.map_congr_left
      intro q _
      exact (playerUpdate_fields t row.id q).2.2.1

/-- The player upsert leaves the season-stats table untouched. -/
theorem playerUpsert_seasonStats (s : DbState) (m pname t : String) (ph : Option String) :
    (playerUpsert s m pname t ph).1.seasonStats = s.seasonStats := by
  rcases hfind : findPlayerByMlbId s m with _ | row <;> simp [playerUpsert, hfind]

/-- The player upsert leaves nextId unchanged on an update and bumps it on an
insert; either way row ids stay below it. -/
theorem playerUpsert_wf (s : DbState) (m pname t : String) (ph : Option String)
    (hwf : DbWF s) : DbWF (playerUpsert s m pname t ph).1 := by
  rcases hfind : findPlayerByMlbId s m with _ | row
  · simp only [playerUpsert, hfind]
    refine ⟨?_, ?_, hwf.2.2⟩
    · rw [List.pairwise_append]
      refine ⟨hwf.1, List.pairwise_singleton _ _, ?_⟩
      intro a ha b hb
      have hb2 : b = ⟨s.nextId, m, pname, t, ph⟩ := by simpa using hb
      subst hb2
      exact Nat.ne_of_lt (hwf.2.1 a ha)
    · intro q hq
      rcases List.mem_append.mp hq with h | h
      · exact Nat.lt_succ_of_lt (hwf.2.1 q h)
      · have hq2 : q = ⟨s.nextId, m, pname, t, ph⟩ := by simpa using h
        subst hq2
        exact Nat.lt_succ_self _
  · simp only [playerUpsert, hfind]
    refine ⟨?_, ?_, hwf.2.2⟩
    · rw [List.pairwise_map]
      refine hwf.1.imp ?_
      intro a b hab
      rw [(playerUpdate_fields t row.id a).1, (playerUpdate_fields t row.id b).1]
      exact hab
    · intro q hq
      rcases List.mem_map.mp hq with ⟨q0, hq0, rfl⟩
      rw [(playerUpdate_fields t row.id q0).1]
      exact hwf.2.1 q0 hq0

/-- The season-stats upsert touches neither the player table nor nextId. -/
theorem seasonStatsUpsert_players (s : DbState) (pid y v : Nat) (t : String) :
    (seasonStatsUpsert s pid y v t).players = s.players ∧
    (seasonStatsUpsert s pid y v t).nextId = s.nextId := by
  rcases hf : findSeasonStats s pid y with _ | srow <;> simp [seasonStatsUpsert, hf]

/-- The update function of the season-stats upsert changes no key field. -/
theorem seasonUpdate_fields (pid y v : Nat) (t : String) (q : SeasonStatsRow) :
    ((if q.playerId == pid && q.seasonYear == y then
        { q with hrsTotal := v, teamAbbr := t } else q) : SeasonStatsRow).playerId = q.playerId ∧
    ((if q.playerId == pid && q.seasonYear == y then
        { q with hrsTotal := v, teamAbbr := t } else q) : SeasonStatsRow).seasonYear = q.seasonYear := by
  by_cases hid : (q.playerId == pid && q.seasonYear == y) = true <;> simp [hid]

/-- The season-stats upsert preserves well-formedness. -/
theorem seasonStatsUpsert_wf (s : DbState) (pid y v : Nat) (t : String)
    (hwf : DbWF s) : DbWF (seasonStatsUpsert s pid y v t) := by
  rcases hf : findSeasonStats s pid y with _ | srow
  · simp only [seasonStatsUpsert, hf]
    refine ⟨hwf.1, hwf.2.1, ?_⟩
    rw [List.pairwise_append]
    refine ⟨hwf.2.2, List.pairwise_singleton _ _, ?_⟩
    intro a ha b hb hk
    have hb2 : b = ⟨pid, y, v, t⟩ := by simpa using hb
    subst hb2
    have := List.find?_eq_none.mp hf a ha
    simp only [Bool.and_eq_true, beq_iff_eq] at this
    exact this ⟨hk.1, hk.2⟩
  · simp only [seasonStatsUpsert, hf]
    refine ⟨hwf.1, hwf.2.1, ?_⟩
    rw [List.pairwise_map]
    refine hwf.2.2.imp ?_
    intro a b hab hk
    rw [(seasonUpdate_fields pid y v t a).1, (seasonUpdate_fields pid y v t b).1] at hk
    rw [(seasonUpdate_fields pid y v t a).2, (seasonUpdate_fields pid y v t b).2] at hk
    exact hab hk

/-- Resolving a record preserves store well-formedness. -/
theorem resolveRecord_wf (year : Nat) (s : DbState) (p : PlayerData)
    (hwf : DbWF s) : DbWF (resolveRecord year s p) :=
  seasonStatsUpsert_wf _ _ _ _ _
    (playerUpsert_wf s p.mlbId p.name p.teamAbbr p.photoUrl hwf)

/-- Searching a singleton whose element fails the predicate finds nothing. -/
theorem find?_singleton_none {α : Type} (p : α → Bool) (a : α) (h : p a = false) :
    List.find? p [a] = none := by
  rw [List.find?_cons_of_neg _ (by simp [h]), List.find?_nil]

/-- Searching a singleton whose element passes the predicate finds it. -/
theorem find?_singleton_some {α : Type} (p : α → Bool) (a : α) (h : p a = true) :
    List.find? p [a] = some a := by
  rw [List.find?_cons_of_pos _ h]

/-- After a season-stats upsert, the key written holds the written values. -/
theorem findSeasonStats_upsert_self (s : DbState) (pid y v : Nat) (t : String) :
    ∃ srow, findSeasonStats (seasonStatsUpsert s pid y v t) pid y = some srow ∧
      srow.hrsTotal = v ∧ srow.teamAbbr = t := by
  rcases hf : List.find? (fun r : SeasonStatsRow => r.playerId == pid && r.seasonYear == y)
      s.seasonStats with _ | srow0
  · refine ⟨⟨pid, y, v, t⟩, ?_, rfl, rfl⟩
    simp only [seasonStatsUpsert, findSeasonStats, hf]
    rw [List.find?_append, hf]
    simp
  · have hkey : (srow0.playerId == pid && srow0.seasonYear == y) = true := by
      simpa using List.find?_some hf
    refine ⟨{ srow0 with hrsTotal := v, teamAbbr := t }, ?_, rfl, rfl⟩
    simp only [seasonStatsUpsert, findSeasonStats, hf]
    rw [List.find?_map]
    have hcomp : ((fun r : SeasonStatsRow => r.playerId == pid && r.seasonYear == y) ∘
        (fun r => if r.playerId == pid && r.seasonYear == y then
          { r with hrsTotal := v, teamAbbr := t } else r)) =
        (fun r : SeasonStatsRow => r.playerId == pid && r.seasonYear == y) := by
      funext r
      simp only [Function.comp_apply]
      by_cases hc : (r.playerId == pid && r.seasonYear == y) = true
      · rw [if_pos hc]
      · rw [if_neg hc]
    rw [hcomp, hf, Option.map_some']
    exact congrArg some (if_pos hkey)

/-- A season-stats upsert leaves every other composite key untouched. -/
theorem findSeasonStats_upsert_other (s : DbState) (pid y v : Nat) (t : String)
    (pid2 y2 : Nat) (h : ¬(pid2 = pid ∧ y2 = y)) :
    findSeasonStats (seasonStatsUpsert s pid y v t) pid2 y2 = findSeasonStats s pid2 y2 := by
  rcases hf : List.find? (fun r : SeasonStatsRow => r.playerId == pid && r.seasonYear == y)
      s.seasonStats with _ | srow0
  · simp only [seasonStatsUpsert, findSeasonStats, hf]
    rw [List.find?_append,
      find?_singleton_none (fun r : SeasonStatsRow => r.playerId == pid2 && r.seasonYear == y2)
        ⟨pid, y, v, t⟩ (by
          rw [Bool.eq_false_iff]
          intro hc
          simp only [Bool.and_eq_true, beq_iff_eq] at hc
          exact h ⟨hc.1.symm, hc.2.symm⟩),
      Option.or_none]
  · simp only [seasonStatsUpsert, findSeasonStats, hf]
    rw [List.find?_map]
    have hcomp : ((fun r : SeasonStatsRow => r.playerId == pid2 && r.seasonYear == y2) ∘
        (fun r => if r.playerId == pid && r.seasonYear == y then
          { r with hrsTotal := v, teamAbbr := t } else r)) =
        (fun r : SeasonStatsRow => r.playerId == pid2 && r.seasonYear == y2) := by
      funext r
      simp only [Function.comp_apply]
      by_cases hc : (r.playerId == pid && r.seasonYear == y) = true
      · rw [if_pos hc]
      · rw [if_neg hc]
    rw [hcomp]
    rcases hf2 : List.find?
        (fun r : SeasonStatsRow => r.playerId == pid2 && r.seasonYear == y2) s.seasonStats with _ | r0
    · rfl
    · have hkey2 : (r0.playerId == pid2 && r0.seasonYear == y2) = true := by
        simpa using List.find?_some hf2
      have hnot : ¬(r0.playerId == pid && r0.seasonYear == y) = true := by
        intro hcontra
        simp only [Bool.and_eq_true, beq_iff_eq] at hkey2 hcontra
        exact h ⟨by omega, by omega⟩
      rw [Option.map_some']
      exact congrArg some (if_neg hnot)

/-- Looking a player up is unaffected by a season-stats upsert. -/
theorem findPlayer_seasonUpsert (s : DbState) (pid y v : Nat) (t m : String) :
    findPlayerByMlbId (seasonStatsUpsert s pid y v t) m = findPlayerByMlbId s m := by
  rw [findPlayerByMlbId, findPlayerByMlbId, (seasonStatsUpsert_players s pid y v t).1]

/-- Looking season stats up is unaffected by a player upsert. -/
theorem findSeason_playerUpsert (s : DbState) (m pname t : String) (ph : Option String)
    (pid y : Nat) :
    findSeasonStats (playerUpsert s m pname t ph).1 pid y = findSeasonStats s pid y := by
  rw [findSeasonStats, findSeasonStats, playerUpsert_seasonStats]

/-- Searching by mlbId commutes with the team-update map of the player
upsert. -/
theorem findPlayer_map_update (l : List PlayerRow) (rid : Nat) (t m2 : String) :
    List.find? (fun q : PlayerRow => q.mlbId == m2)
        (l.map (fun q => if q.id == rid then { q with teamAbbr := t } else q)) =
      (List.find? (fun q : PlayerRow => q.mlbId == m2) l).map
        (fun q => if q.id == rid then { q with teamAbbr := t } else q) := by
  have hcomp : ((fun q : PlayerRow => q.mlbId == m2) ∘
      (fun q => if q.id == rid then { q with teamAbbr := t } else q)) =
      (fun q : PlayerRow => q.mlbId == m2) := by
    funext q
    simp only [Function.comp_apply]
    by_cases hc : (q.id == rid) = true
    · rw [if_pos hc]
    · rw [if_neg hc]
  rw [List.find?_map, hcomp]

/-- Characterization of the player upsert on an unseen external id. -/
theorem playerUpsert_create_state (s : DbState) (m pname t : String) (ph : Option String)
    (h : findPlayerByMlbId s m = none) :
    playerUpsert s m pname t ph =
      ({ s with
          players := s.players ++ [⟨s.nextId, m, pname, t, ph⟩],
          nextId := s.nextId + 1,
          writes := s.writes + 1 }, s.nextId) := by
  simp [playerUpsert, h]

/-- Characterization of the player upsert on a matched external id. -/
theorem playerUpsert_update_state (s : DbState) (m pname t : String) (ph : Option String)
    (row : PlayerRow) (h : findPlayerByMlbId s m = some row) :
    playerUpsert s m pname t ph =
      ({ s with
          players := s.players.map (fun q =>
            if q.id == row.id then { q with teamAbbr := t } else q),
          writes := s.writes + 1 }, row.id) := by
  simp [playerUpsert, h]

/-- Resolving a record the store already reflects is a pure no-op apart from
the two issued UPDATE statements. -/
theorem resolveRecord_noop (year : Nat) (s : DbState) (p : PlayerData)
    (hwf : DbWF s) (hag : AgreesWith s year p) :
    resolveRecord year s p = { s with writes := s.writes + 2 } := by
  obtain ⟨row, hfind, hteam, srow, hsfind, hhrs, hsteam⟩ := hag
  have hrowmem : row ∈ s.players := List.mem_of_find?_eq_some hfind
  have hsrowmem : srow ∈ s.seasonStats := List.mem_of_find?_eq_some hsfind
  have hsrowkey : (srow.playerId == row.id && srow.seasonYear == year) = true := by
    simpa using List.find?_some hsfind
  have hsymmP : Symmetric (fun a b : PlayerRow => a.id ≠ b.id) := by
    intro a b hab
    exact hab.symm
  have hsymmS : Symmetric (fun a b : SeasonStatsRow =>
      ¬(a.playerId = b.playerId ∧ a.seasonYear = b.seasonYear)) := by
    intro a b hab hk
    exact hab ⟨hk.1.symm, hk.2.symm⟩
  have hmapid : s.players.map (fun q =>
      if q.id == row.id then { q with teamAbbr := p.teamAbbr } else q) = s.players := by
    apply map_id_of_mem
    intro q hq
    by_cases hid : (q.id == row.id) = true
    · have hqrow : q = row := by
        by_contra hne
        have hnid : q.id ≠ row.id := (hwf.1.forall hsymmP) hq hrowmem hne
        exact hnid (by simpa using hid)
      subst hqrow
      rw [if_pos hid, ← hteam]
    · rw [if_neg hid]
  have hsmapid : s.seasonStats.map (fun r =>
      if r.playerId == row.id && r.seasonYear == year then
        { r with hrsTotal := p.homeRuns, teamAbbr := p.teamAbbr } else r) = s.seasonStats := by
    apply map_id_of_mem
    intro q hq
    by_cases hc : (q.playerId == row.id && q.seasonYear == year) = true
    · have hqsrow : q = srow := by
        by_contra hne
        have hrel : ¬(q.playerId = srow.playerId ∧ q.seasonYear = srow.seasonYear) :=
          (hwf.2.2.forall hsymmS) hq hsrowmem hne
        simp only [Bool.and_eq_true, beq_iff_eq] at hc hsrowkey
        exact hrel ⟨by omega, by omega⟩
      subst hqsrow
      rw [if_pos hc, ← hhrs, ← hsteam]
    · rw [if_neg hc]
  rw [resolveRecord, playerUpsert_update_state s p.mlbId p.name p.teamAbbr p.photoUrl row hfind]
  dsimp only
  rw [hmapid]
  have hsfind2 : findSeasonStats ({ s with writes := s.writes + 1 } : DbState) row.id year =
      some srow := hsfind
  rw [seasonStatsUpsert, hsfind2]
  rw [show ({ s with writes := s.writes + 1 } : DbState).seasonStats = s.seasonStats from rfl,
    hsmapid]

/-- After resolving a record, the store reflects it. -/
theorem resolveRecord_agrees_self (year : Nat) (s : DbState) (p : PlayerData)
    (hwf : DbWF s) : AgreesWith (resolveRecord year s p) year p := by
  rw [resolveRecord]
  rcases hpfind : findPlayerByMlbId s p.mlbId with _ | prow
  · rw [playerUpsert_create_state s p.mlbId p.name p.teamAbbr p.photoUrl hpfind]
    obtain ⟨srow, hsrow, hsh, hst⟩ := findSeasonStats_upsert_self
      ({ s with
          players := s.players ++ [⟨s.nextId, p.mlbId, p.name, p.teamAbbr, p.photoUrl⟩],
          nextId := s.nextId + 1,
          writes := s.writes + 1 }) s.nextId year p.homeRuns p.teamAbbr
    refine ⟨⟨s.nextId, p.mlbId, p.name, p.teamAbbr, p.photoUrl⟩, ?_, rfl, srow, hsrow, hsh, hst⟩
    rw [findPlayer_seasonUpsert]
    show List.find? _ (s.players ++ [(⟨s.nextId, p.mlbId, p.name, p.teamAbbr, p.photoUrl⟩ : PlayerRow)]) = _
    rw [List.find?_append]
    have hnone : List.find? (fun q : PlayerRow => q.mlbId == p.mlbId) s.players = none := hpfind
    rw [hnone, Option.none_or]
    exact find?_singleton_some _ _ (by simp)
  · rw [playerUpsert_update_state s p.mlbId p.name p.teamAbbr p.photoUrl prow hpfind]
    obtain ⟨srow, hsrow, hsh, hst⟩ := findSeasonStats_upsert_self
      ({ s with
          players := s.players.map (fun q =>
            if q.id == prow.id then { q with teamAbbr := p.teamAbbr } else q),
          writes := s.writes + 1 }) prow.id year p.homeRuns p.teamAbbr
    refine ⟨{ prow with teamAbbr := p.teamAbbr }, ?_, rfl, srow, hsrow, hsh, hst⟩
    rw [findPlayer_seasonUpsert]
    show List.find? _ (s.players.map (fun q =>
      if q.id == prow.id then { q with teamAbbr := p.teamAbbr } else q)) = _
    rw [findPlayer_map_update]
    have hsome : List.find? (fun q : PlayerRow => q.mlbId == p.mlbId) s.players =
        some prow := hpfind
    rw [hsome, Option.map_some']
    exact congrArg some (if_pos (by simp))

/-- Resolving a record with a different external id preserves agreement with
an already-reflected record. -/
theorem resolveRecord_preserves_agrees (year : Nat) (s : DbState) (p q : PlayerData)
    (hwf : DbWF s) (hne : q.mlbId ≠ p.mlbId) (hag : AgreesWith s year q) :
    AgreesWith (resolveRecord year s p) year q := by
  obtain ⟨row, hfind, hteam, srow, hsfind, hhrs, hsteam⟩ := hag
  have hrowmem : row ∈ s.players := List.mem_of_find?_eq_some hfind
  have hrowmlb : row.mlbId = q.mlbId := by
    simpa using List.find?_some hfind
  rw [resolveRecord]
  rcases hpfind : findPlayerByMlbId s p.mlbId with _ | prow
  · rw [playerUpsert_create_state s p.mlbId p.name p.teamAbbr p.photoUrl hpfind]
    refine ⟨row, ?_, hteam, srow, ?_, hhrs, hsteam⟩
    · rw [findPlayer_seasonUpsert]
      show List.find? _ (s.players ++
        [(⟨s.nextId, p.mlbId, p.name, p.teamAbbr, p.photoUrl⟩ : PlayerRow)]) = _
      rw [List.find?_append]
      have hsome : List.find? (fun x : PlayerRow => x.mlbId == q.mlbId) s.players =
          some row := hfind
      rw [hsome]
      rfl
    · rw [findSeasonStats_upsert_other _ _ _ _ _ _ _
        (fun hk => Nat.ne_of_lt (hwf.2.1 row hrowmem) hk.1)]
      exact hsfind
  · have hprowmlb : prow.mlbId = p.mlbId := by
      simpa using List.find?_some hpfind
    have hrowne : row ≠ prow := by
      intro hcontra
      apply hne
      rw [← hrowmlb, hcontra, hprowmlb]
    have hsymmP : Symmetric (fun a b : PlayerRow => a.id ≠ b.id) := by
      intro a b hab
      exact hab.symm
    have hidne : row.id ≠ prow.id :=
      (hwf.1.forall hsymmP) hrowmem (List.mem_of_find?_eq_some hpfind) hrowne
    rw [playerUpsert_update_state s p.mlbId p.name p.teamAbbr p.photoUrl prow hpfind]
    refine ⟨row, ?_, hteam, srow, ?_, hhrs, hsteam⟩
    · rw [findPlayer_seasonUpsert]
      show List.find? _ (s.players.map (fun x =>
        if x.id == prow.id then { x with teamAbbr := p.teamAbbr } else x)) = _
      rw [findPlayer_map_update]
      have hsome : List.find? (fun x : PlayerRow => x.mlbId == q.mlbId) s.players =
          some row := hfind
      rw [hsome, Option.map_some']
      exact congrArg some (if_neg (by simp [hidne]))
    · rw [findSeasonStats_upsert_other _ _ _ _ _ _ _ (fun hk => hidne hk.1)]
      exact hsfind

/-- Folding the resolver over records preserves well-formedness. -/
theorem foldResolve_wf (year : Nat) :
    ∀ (rs : List PlayerData) (s : DbState), DbWF s →
      DbWF (rs.foldl (resolveRecord year) s)
  | [], _, hwf => hwf
  | r :: rest, s, hwf => by
    rw [List.foldl_cons]
    exact foldResolve_wf year rest _ (resolveRecord_wf year s r hwf)

/-- Folding the resolver over records with other external ids preserves
agreement. -/
theorem foldResolve_preserves_agrees (year : Nat) (q : PlayerData) :
    ∀ (rest : List PlayerData) (s : DbState), DbWF s →
      (∀ p2 ∈ rest, q.mlbId ≠ p2.mlbId) → AgreesWith s year q →
      AgreesWith (rest.foldl (resolveRecord year) s) year q
  | [], _, _, _, hag => hag
  | p2 :: rest, s, hwf, hne, hag => by
    rw [List.foldl_cons]
    exact foldResolve_preserves_agrees year q rest (resolveRecord year s p2)
      (resolveRecord_wf year s p2 hwf)
      (fun r hr => hne r (List.mem_cons_of_mem _ hr))
      (resolveRecord_preserves_agrees year s p2 q hwf (hne p2 (List.mem_cons_self _ _)) hag)

/-- After one full no-failure run over records with pairwise distinct external
ids, the store reflects every record. -/
theorem seedAll_agrees (year : Nat) :
    ∀ (rs : List PlayerData) (s : DbState), DbWF s →
      (rs.map PlayerData.mlbId).Nodup →
      ∀ q ∈ rs, AgreesWith (rs.foldl (resolveRecord year) s) year q
  | [], _, _, _, q, hq => absurd hq (List.not_mem_nil q)
  | r :: rest, s, hwf, hnd, q, hq => by
    have hnd2 : (r.mlbId ∉ rest.map PlayerData.mlbId) ∧
        (rest.map PlayerData.mlbId).Nodup := by
      rw [List.map_cons] at hnd
      exact List.nodup_cons.mp hnd
    rw [List.foldl_cons]
    rcases List.mem_cons.mp hq with rfl | hq2
    · refine foldResolve_preserves_agrees year q rest (resolveRecord year s q)
        (resolveRecord_wf year s q hwf) ?_
        (resolveRecord_agrees_self year s q hwf)
      intro p2 hp2 hcontra
      exact hnd2.1 (hcontra ▸ List.mem_map_of_mem PlayerData.mlbId hp2)
    · exact seedAll_agrees year rest (resolveRecord year s r)
        (resolveRecord_wf year s r hwf) hnd2.2 q hq2

/-- The state reached by the seeding fold with no failures is the resolver
fold. -/
theorem seedAll_states (year : Nat) :
    ∀ (rs : List PlayerData) (s : DbState) (c k : Nat),
      (rs.foldl (seedStep noFail noFail year) ⟨s, c, k⟩).state =
        rs.foldl (resolveRecord year) s
  | [], _, _, _ => rfl
  | r :: rest, s, c, k => by
    rw [List.foldl_cons, List.foldl_cons]
    have hstep : seedStep noFail noFail year ⟨s, c, k⟩ r =
        ⟨resolveRecord year s r, c + 1, k⟩ := by
      simp [seedStep, noFail, resolveRecord]
    rw [hstep]
    exact seedAll_states year rest _ _ _

/-- Re-running the seeding loop over records the store already reflects only
re-issues two UPDATE statements per record. -/
theorem seedAll_noop (year : Nat) :
    ∀ (rs : List PlayerData) (s : DbState) (c k : Nat), DbWF s →
      (∀ q ∈ rs, AgreesWith s year q) →
      rs.foldl (seedStep noFail noFail year) ⟨s, c, k⟩ =
        ⟨{ s with writes := s.writes + 2 * rs.length }, c + rs.length, k⟩
  | [], s, c, k, _, _ => by simp
  | r :: rest, s, c, k, hwf, hag => by
    rw [List.foldl_cons]
    have hstep : seedStep noFail noFail year ⟨s, c, k⟩ r =
        ⟨resolveRecord year s r, c + 1, k⟩ := by
      simp [seedStep, noFail, resolveRecord]
    rw [hstep, resolveRecord_noop year s r hwf (hag r (List.mem_cons_self r rest))]
    have hwf2 : DbWF ({ s with writes := s.writes + 2 } : DbState) := hwf
    have hag2 : ∀ q ∈ rest, AgreesWith { s with writes := s.writes + 2 } year q :=
      fun q hq => hag q (List.mem_cons_of_mem r hq)
    rw [seedAll_noop year rest { s with writes := s.writes + 2 } (c + 1) k hwf2 hag2]
    dsimp only
    simp only [SeedResult.mk.injEq, DbState.mk.injEq, List.length_cons]
    refine ⟨⟨trivial, trivial, trivial, by omega⟩, by omega, trivial⟩

/-- Claim C3 counterexample: re-running the resolver on identical input is not
write-free — the concrete single-record run issues two further UPDATE
statements on its second pass. -/
theorem resolver_rerun_writes_counterexample :
    (seedPlayersToDatabase noFail noFail 2025
        (seedPlayersToDatabase noFail noFail 2025 emptyDb
          [⟨"Aaron Judge", "mlb-1", "NYY", 45, none⟩]).state
        [⟨"Aaron Judge", "mlb-1", "NYY", 45, none⟩]).state.writes = 4 ∧
    (seedPlayersToDatabase noFail noFail 2025 emptyDb
        [⟨"Aaron Judge", "mlb-1", "NYY", 45, none⟩]).state.writes = 2 := by
  exact ⟨rfl, rfl⟩

/-- Claim C3 as amended: on a well-formed store and a fetched list with
pairwise distinct external ids, a second identical run reproduces exactly the
same Player table and PlayerSeasonStats table (hence the same Player set and
currentTeamAbbr, with no duplicates), but re-issues two UPDATE statements per
record rather than performing no writes. -/
theorem resolver_rerun_state_idempotent (year : Nat) (s : DbState)
    (records : List PlayerData) (hwf : DbWF s)
    (hnd : (records.map PlayerData.mlbId).Nodup) :
    (seedPlayersToDatabase noFail noFail year
        (seedPlayersToDatabase noFail noFail year s records).state records).state =
      { (seedPlayersToDatabase noFail noFail year s records).state with
          writes := (seedPlayersToDatabase noFail noFail year s records).state.writes
            + 2 * records.length } := by
  have hS1 : (seedPlayersToDatabase noFail noFail year s records).state =
      records.foldl (resolveRecord year) s := seedAll_states year records s 0 0
  rw [hS1]
  have hwf1 : DbWF (records.foldl (resolveRecord year) s) :=
    foldResolve_wf year records s hwf
  have hagr : ∀ q ∈ records,
      AgreesWith (records.foldl (resolveRecord year) s) year q :=
    seedAll_agrees year records s hwf hnd
  show (records.foldl (seedStep noFail noFail year)
      ⟨records.foldl (resolveRecord year) s, 0, 0⟩).state = _
  rw [seedAll_noop year records (records.foldl (resolveRecord year) s) 0 0 hwf1 hagr]

/-- Claim C3 amended witness: a concrete two-record rerun reproduces the same
tables with four additional update writes. -/
theorem resolver_rerun_state_idempotent_witness :
    DbWF emptyDb ∧
    (([⟨"Alpha", "mlb-1", "NYY", 30, none⟩,
       ⟨"Beta", "mlb-2", "LAD", 25, none⟩] : List PlayerData).map PlayerData.mlbId).Nodup ∧
    (seedPlayersToDatabase noFail noFail 2025
        (seedPlayersToDatabase noFail noFail 2025 emptyDb
          [⟨"Alpha", "mlb-1", "NYY", 30, none⟩, ⟨"Beta", "mlb-2", "LAD", 25, none⟩]).state
        [⟨"Alpha", "mlb-1", "NYY", 30, none⟩, ⟨"Beta", "mlb-2", "LAD", 25, none⟩]).state =
      { (seedPlayersToDatabase noFail noFail 2025 emptyDb
          [⟨"Alpha", "mlb-1", "NYY", 30, none⟩, ⟨"Beta", "mlb-2", "LAD", 25, none⟩]).state with
          writes := (seedPlayersToDatabase noFail noFail 2025 emptyDb
            [⟨"Alpha", "mlb-1", "NYY", 30, none⟩,
             ⟨"Beta", "mlb-2", "LAD", 25, none⟩]).state.writes
            + 2 * ([⟨"Alpha", "mlb-1", "NYY", 30, none⟩,
                    ⟨"Beta", "mlb-2", "LAD", 25, none⟩] : List PlayerData).length } := by
  refine ⟨⟨List.Pairwise.nil, by simp [emptyDb], List.Pairwise.nil⟩, by decide, ?_⟩
  exact resolver_rerun_state_idempotent 2025 emptyDb
    [⟨"Alpha", "mlb-1", "NYY", 30, none⟩, ⟨"Beta", "mlb-2", "LAD", 25, none⟩]
    ⟨List.Pairwise.nil, by simp [emptyDb], List.Pairwise.nil⟩ (by decide)

/-- Claim C1: for an 8-player roster the Scoring Engine sums the 7 largest
per-player totals (the score plus the excluded total is the full sum and the
excluded total is a minimum), and the excluded player is the minimum with the
deterministic tie-break: the later roster position is excluded on a tie. -/
theorem bestSeven_correct (totals : List Nat) (h : totals.length = 8) :
    ∃ i m : Nat, (scoreRoster totals).2 = some i ∧ totals[i]? = some m ∧
      (scoreRoster totals).1 + m = totals.sum ∧
      (∀ j v : Nat, totals[j]? = some v → m ≤ v) ∧
      (∀ j : Nat, totals[j]? = some m → j ≤ i) := by
  have hperm : (List.insertionSort scoreOrder totals.enum).Perm totals.enum :=
    List.perm_insertionSort scoreOrder totals.enum
  have hsorted : List.Sorted scoreOrder (List.insertionSort scoreOrder totals.enum) :=
    List.sorted_insertionSort scoreOrder totals.enum
  set S := List.insertionSort scoreOrder totals.enum with hS
  have hlenS : S.length = 8 := by
    rw [hperm.length_eq, List.enum_length, h]
  have h7 : 7 < S.length := by omega
  have hdrop : S.drop 7 = [S[7]] := by
    rw [List.drop_eq_getElem_cons h7]
    rw [List.drop_eq_nil_of_le (by omega)]
  have hSdecomp : S = S.take 7 ++ [S[7]] := by
    conv_lhs => rw [← List.take_append_drop 7 S]
    rw [hdrop]
  have hrel : ∀ a ∈ S, a = S[7] ∨ scoreOrder a S[7] := by
    intro a ha
    have hsorted2 : List.Sorted scoreOrder (S.take 7 ++ [S[7]]) := by
      rw [← hSdecomp]
      exact hsorted
    rw [hSdecomp] at ha
    rcases List.mem_append.mp ha with hin | hin
    · right
      exact (List.pairwise_append.mp hsorted2).2.2 a hin (S[7]) (List.mem_singleton_self _)
    · left
      simpa using hin
  have hsum : ((S.take 7).map Prod.snd).sum + (S[7]).2 = totals.sum := by
    have h1 : (S.map Prod.snd).sum = totals.sum := by
      rw [(hperm.map Prod.snd).sum_eq, List.enum_map_snd]
    have h2 : (S.map Prod.snd).sum =
        ((S.take 7).map Prod.snd).sum + (S[7]).2 := by
      conv_lhs => rw [hSdecomp]
      rw [List.map_append, List.sum_append]
      simp
    omega
  have hmemS : ∀ a : Nat × Nat, a ∈ S ↔ totals[a.1]? = some a.2 := by
    intro a
    rw [hperm.mem_iff, List.mem_enum_iff_getElem?]
  refine ⟨(S[7]).1, (S[7]).2, ?_, ?_, ?_, ?_, ?_⟩
  · show (scoreRoster totals).2 = _
    simp only [scoreRoster, ← hS, hdrop]
    rfl
  · exact (hmemS (S[7])).mp (List.getElem_mem h7)
  · show (scoreRoster totals).1 + _ = _
    simp only [scoreRoster, ← hS]
    exact hsum
  · intro j v hjv
    have hmem : (j, v) ∈ S := (hmemS (j, v)).mpr hjv
    rcases hrel _ hmem with heq | hord
    · rw [← heq]
    · rcases hord with hlt | ⟨heq2, _⟩
      · exact Nat.le_of_lt hlt
      · exact Nat.le_of_eq heq2.symm
  · intro j hjm
    have hmem : (j, (S[7]).2) ∈ S := (hmemS (j, (S[7]).2)).mpr hjm
    rcases hrel _ hmem with heq | hord
    · exact Nat.le_of_eq (congrArg Prod.fst heq)
    · rcases hord with hlt | ⟨_, hle⟩
      · exact absurd hlt (lt_irrefl _)
      · exact hle

/-- Claim C1 witness: the spec scenario — totals 30,25,20,18,15,10,5,0 score
123 and exclude the 0-total player at the last roster position. -/
theorem bestSeven_correct_witness :
    scoreRoster [30, 25, 20, 18, 15, 10, 5, 0] = (123, some 7) ∧
    (∃ i m : Nat, (scoreRoster [30, 25, 20, 18, 15, 10, 5, 0]).2 = some i ∧
      ([30, 25, 20, 18, 15, 10, 5, 0] : List Nat)[i]? = some m ∧
      (scoreRoster [30, 25, 20, 18, 15, 10, 5, 0]).1 + m =
        ([30, 25, 20, 18, 15, 10, 5, 0] : List Nat).sum ∧
      (∀ j v : Nat, ([30, 25, 20, 18, 15, 10, 5, 0] : List Nat)[j]? = some v → m ≤ v) ∧
      (∀ j : Nat, ([30, 25, 20, 18, 15, 10, 5, 0] : List Nat)[j]? = some m → j ≤ i)) :=
  ⟨by decide, bestSeven_correct [30, 25, 20, 18, 15, 10, 5, 0] rfl⟩

/-- Competition-rank walk correctness over a descending-sorted list: the rank
passed along for the element after the prefix equals one plus the number of
strictly larger entries, and the walk reproduces that value for every later
element. -/
theorem assignRanksAux_spec :
    ∀ (rest pre : List Nat) (t : Nat),
      List.Sorted (fun a b : Nat => b ≤ a) (pre ++ t :: rest) →
      assignRanksAux (pre.length + 1) t
          ((pre ++ t :: rest).countP (fun u => decide (t < u)) + 1) rest =
        rest.map (fun x => (pre ++ t :: rest).countP (fun u => decide (x < u)) + 1)
  | [], _, _, _ => rfl
  | x :: rest2, pre, t, hsort => by
    have hcross : ∀ q ∈ pre, ∀ b ∈ t :: x :: rest2, b ≤ q :=
      (List.pairwise_append.mp hsort).2.2
    have htail : List.Sorted (fun a b : Nat => b ≤ a) (t :: x :: rest2) :=
      (List.pairwise_append.mp hsort).2.1
    have hxt : x ≤ t := List.rel_of_sorted_cons htail x (by simp)
    have htail2 : List.Sorted (fun a b : Nat => b ≤ a) (x :: rest2) := htail.of_cons
    have hassoc : pre ++ t :: x :: rest2 = (pre ++ [t]) ++ x :: rest2 := by simp
    have hsort2 : List.Sorted (fun a b : Nat => b ≤ a) ((pre ++ [t]) ++ x :: rest2) := by
      rw [← hassoc]
      exact hsort
    have hcount_x : (pre ++ t :: x :: rest2).countP (fun u => decide (x < u)) =
        if (x == t) = true then
          (pre ++ t :: x :: rest2).countP (fun u => decide (t < u))
        else pre.length + 1 := by
      by_cases hxeq : (x == t) = true
      · rw [if_pos hxeq]
        have : x = t := by simpa using hxeq
        rw [this]
      · rw [if_neg hxeq]
        have hxlt : x < t := lt_of_le_of_ne hxt (by simpa using hxeq)
        rw [List.countP_append]
        have h1 : pre.countP (fun u => decide (x < u)) = pre.length :=
          List.countP_eq_length.mpr (fun q hq => by
            simp only [decide_eq_true_eq]
            exact lt_of_lt_of_le hxlt (hcross q hq t (by simp)))
        have h3 : rest2.countP (fun u => decide (x < u)) = 0 :=
          List.countP_eq_zero.mpr (fun q hq => by
            simp only [decide_eq_true_eq, not_lt]
            exact List.rel_of_sorted_cons htail2 q hq)
        rw [h1, List.countP_cons, List.countP_cons, h3]
        simp [hxlt]
    have hr : (if (x == t) = true then
        ((pre ++ t :: x :: rest2).countP (fun u => decide (t < u)) + 1)
        else pre.length + 1 + 1) =
        (pre ++ t :: x :: rest2).countP (fun u => decide (x < u)) + 1 := by
      by_cases hxeq : (x == t) = true
      · rw [if_pos hxeq, hcount_x, if_pos hxeq]
      · rw [if_neg hxeq, hcount_x, if_neg hxeq]
    show (if (x == t) = true then
        ((pre ++ t :: x :: rest2).countP (fun u => decide (t < u)) + 1)
        else pre.length + 1 + 1) ::
      assignRanksAux (pre.length + 1 + 1) x
        (if (x == t) = true then
          ((pre ++ t :: x :: rest2).countP (fun u => decide (t < u)) + 1)
          else pre.length + 1 + 1) rest2 = _
    rw [hr, List.map_cons]
    congr 1
    have hrec := assignRanksAux_spec rest2 (pre ++ [t]) x hsort2
    rw [List.length_append, List.length_singleton] at hrec
    rw [hassoc]
    exact hrec

/-- Competition ranks of a descending-sorted list: each entry is ranked one
plus the number of strictly larger entries. -/
theorem assignRanks_spec (s : List Nat)
    (hs : List.Sorted (fun a b : Nat => b ≤ a) s) :
    assignRanks s = s.map (fun x => s.countP (fun u => decide (x < u)) + 1) := by
  cases s with
  | nil => rfl
  | cons t rest =>
    have hzero : (t :: rest).countP (fun u => decide (t < u)) = 0 :=
      List.countP_eq_zero.mpr (fun q hq => by
        simp only [decide_eq_true_eq, not_lt]
        rcases List.mem_cons.mp hq with rfl | hq2
        · exact Nat.le_refl _
        · exact List.rel_of_sorted_cons hs q hq2)
    have haux := assignRanksAux_spec rest [] t hs
    rw [show ([] ++ t :: rest : List Nat) = t :: rest from rfl] at haux
    rw [hzero] at haux
    simp only [List.length_nil, Nat.zero_add] at haux
    rw [List.map_cons]
    show 1 :: assignRanksAux 1 t 1 rest = _
    rw [haux, hzero]

/-- Claim C2: the Leaderboard Builder sorts totals descending and assigns
standard competition ranks — the output totals are a descending permutation
of the input, and every entry carries rank equal to one plus the number of
entries strictly ahead of it. -/
theorem leaderboard_ranks_correct (totals : List Nat) :
    List.Sorted (fun a b : Nat => b ≤ a) ((buildLeaderboard totals).map Prod.fst) ∧
    ((buildLeaderboard totals).map Prod.fst).Perm totals ∧
    ∀ k t r : Nat, (buildLeaderboard totals)[k]? = some (t, r) →
      r = totals.countP (fun u => decide (t < u)) + 1 := by
  have hsorted : List.Sorted (fun a b : Nat => b ≤ a)
      (List.insertionSort (fun a b : Nat => b ≤ a) totals) :=
    List.sorted_insertionSort (fun a b : Nat => b ≤ a) totals
  have hperm : (List.insertionSort (fun a b : Nat => b ≤ a) totals).Perm totals :=
    List.perm_insertionSort (fun a b : Nat => b ≤ a) totals
  set s := List.insertionSort (fun a b : Nat => b ≤ a) totals with hsdef
  have hzip : buildLeaderboard totals =
      s.map (fun x => (x, s.countP (fun u => decide (x < u)) + 1)) := by
    show s.zip (assignRanks s) = _
    rw [assignRanks_spec s hsorted]
    conv_lhs => rw [show s.zip (s.map fun x => s.countP (fun u => decide (x < u)) + 1) =
      (s.map id).zip (s.map fun x => s.countP (fun u => decide (x < u)) + 1) from by
        rw [List.map_id]]
    rw [List.zip_map']
    simp only [id_eq]
  have hfst : (buildLeaderboard totals).map Prod.fst = s := by
    rw [hzip, List.map_map]
    show s.map (fun x => x) = s
    exact List.map_id s
  refine ⟨?_, ?_, ?_⟩
  · rw [hfst]
    exact hsorted
  · rw [hfst]
    exact hperm
  · intro k t r hk
    rw [hzip, List.getElem?_map] at hk
    rcases Option.map_eq_some'.mp hk with ⟨x, _, hgx⟩
    have ht : x = t := congrArg Prod.fst hgx
    have hrr : s.countP (fun u => decide (x < u)) + 1 = r := congrArg Prod.snd hgx
    rw [← hrr, ht, hperm.countP_eq]

/-- Claim C2 witness: totals 50, 50, 40, 30 receive ranks 1, 1, 3, 4. -/
theorem leaderboard_ranks_correct_witness :
    buildLeaderboard [50, 50, 40, 30] = [(50, 1), (50, 1), (40, 3), (30, 4)] ∧
    (∀ k t r : Nat, (buildLeaderboard [50, 50, 40, 30])[k]? = some (t, r) →
      r = ([50, 50, 40, 30] : List Nat).countP (fun u => decide (t < u)) + 1) :=
  ⟨by decide, (leaderboard_ranks_correct [50, 50, 40, 30]).2.2⟩

end HRD
